import Mathlib

/-!
Shallow embedding of `Hundred_Steppers.cpp` (the Hundred_Steppers Arduino
library) and proofs about it.

The library drives N stepper motors through daisy-chained shift registers.
The core state is `step_table`, an array of `nSteppers` signed per-motor
position counters, plus a timing watermark `last_step_time`.

Modelling conventions:
  - `step_table` entries (`stepType`, declared in the header file
    `Hundred_Steppers.h`, which is not part of the sources here) are
    modelled as `Int`, following the spec's data model ("signed position
    counters"; `home` compares them with `< 0`, so they are signed).
  - `uint16_t` quantities (`nSteppers`, indices, `length`) are modelled as
    `Nat`; `zero_num` is a `uint16_t` accumulator that the source only ever
    increments, so its updates are taken modulo 2^16.
  - `int` (`steps_to_move`) and `int8_t` (`step_list` entries) are modelled
    as `Int`: the loops only move these values monotonically towards zero,
    so no overflow can occur past the initial values.
  - The frame transmitter `step()` writes pins and reads the clock but
    never writes `step_table`, so the motion models track the number of
    `step()` calls (the frame count) instead of pin effects; the timing
    gate inside `step()` is modelled separately on clock-reading traces.
  - `micros()` returns `unsigned long` (32 bits on AVR); the gate's
    subtraction `micros() - last_step_time` is modular arithmetic on 2^32.
-/

namespace HundredSteppers

/-- Driver state: the motor count `nSteppers` (a `uint16_t`) and the
per-motor position counter array `step_table` (allocated with `nSteppers`
entries by the constructor, `calloc(nSteppers, sizeof(stepType))`). -/
structure State where
  nSteppers : Nat
  step_table : List Int
  deriving Repr, DecidableEq

/-- A state is well formed when the counter storage has exactly
`nSteppers` entries, as every allocation in the source ensures. -/
def State.WF (s : State) : Prop := s.step_table.length = s.nSteppers

/-- Modelled from the spec: `driver_mode` is a constant declared in the
missing header `Hundred_Steppers.h`, the length of the phase cycle; the
spec fixes it as "a 4-step or 8-step full/half-step sequence". We use the
8-step half-step cycle. Used as an `Int` because the source applies the
C++ `%` operator to a signed counter and this constant. -/
def driver_mode : Int := 8

/-- Modelled from the spec: `cmd_list`, the fixed Phase Table from the
missing header, "a small fixed lookup table mapping a phase index to a bit
pattern representing which coil-driving outputs are energized", with
`driver_mode` entries (here the standard 8-entry half-step patterns). -/
def cmd_list : List Nat := [1, 3, 2, 6, 4, 12, 8, 9]

/-- Phase-table index computed by `step()` at line 280:
`step_table[length - i] % driver_mode`. C++ `%` on signed operands
truncates towards zero, which is `Int.tmod`. -/
def phaseIndex (counter : Int) : Int := counter.tmod driver_mode

/-- An `Int` is a valid index into the phase table `cmd_list` when it is
non-negative and below the table length. -/
def validPhaseIndex (i : Int) : Prop := 0 ≤ i ∧ i < cmd_list.length

instance : DecidablePred validPhaseIndex := fun i =>
  inferInstanceAs (Decidable (0 ≤ i ∧ i < cmd_list.length))

/-- Clamp applied by `step()` (lines 272-273): if `length == 0 ||
length > nSteppers`, set `length = nSteppers`. -/
def clampLength (nSteppers length : Nat) : Nat :=
  if length = 0 ∨ length > nSteppers then nSteppers else length

/-- Sequence of `step_table` indices read by the shift loop of `step()`
(lines 278-282): `for (i = 0; i <= length; i++)` reads
`step_table[length - i]`, i.e. indices `length, length-1, ..., 0`, after
`length` has been clamped by `clampLength`. -/
def stepIndices (nSteppers length : Nat) : List Nat :=
  let L := clampLength nSteppers length
  (List.range (L + 1)).map (fun i => L - i)

/-- Body of the `while (steps_to_move != 0)` loop of
`setStepperStep(uint16_t n, int steps_to_move)` (lines 153-166), iterated
to completion: each iteration moves `steps_to_move` one unit towards zero
and moves `step_table[n]` one unit in the direction of the sign. The
`step(n)` call does not touch `step_table` and is omitted here. -/
def moveOneLoop (steps : Int) (n : Nat) (tbl : List Int) : List Int :=
  if steps = 0 then tbl
  else if steps > 0 then
    moveOneLoop (steps - 1) n (tbl.set n (tbl.getD n 0 + 1))
  else
    moveOneLoop (steps + 1) n (tbl.set n (tbl.getD n 0 - 1))
termination_by steps.natAbs
decreasing_by
  · omega
  · omega

/-- Embedding of `Hundred_Steppers::setStepperStep(uint16_t, int)`
(lines 148-168), the single-motor move: a no-op when `n >= nSteppers`,
otherwise the loop above. -/
def setStepperStepSingle (n : Nat) (steps_to_move : Int) (s : State) : State :=
  if n < s.nSteppers then
    { s with step_table := moveOneLoop steps_to_move n s.step_table }
  else s

/-- Intermediate state threaded through one pass of the list-move loop:
the remaining-delta list `step_list`, the counter array `step_table`, the
accumulating zero counter `zero_num` and the `max_changed` index. -/
structure PassState where
  step_list : List Int
  step_table : List Int
  zero_num : Nat
  max_changed : Nat
  deriving Repr, DecidableEq

/-- Body of the `for` loop of `setStepperStep(int8_t * step_list)`
(lines 182-198) at index `i`: a positive remaining delta is decremented
and the counter incremented (recording `max_changed = i`), a negative one
symmetrically; a zero delta increments `zero_num` (a `uint16_t`, hence
modulo 2^16). -/
def listPassStep (st : PassState) (i : Nat) : PassState :=
  let v := st.step_list.getD i 0
  if v > 0 then
    { st with
      step_list := st.step_list.set i (v - 1)
      step_table := st.step_table.set i (st.step_table.getD i 0 + 1)
      max_changed := i }
  else if v < 0 then
    { st with
      step_list := st.step_list.set i (v + 1)
      step_table := st.step_table.set i (st.step_table.getD i 0 - 1)
      max_changed := i }
  else
    { st with zero_num := (st.zero_num + 1) % 65536 }

/-- One full pass `for (i = 0; i < length; i++)` of the list move, with
`max_changed` reset to 0 at the start of the pass (line 181). -/
def listPass (length : Nat) (st : PassState) : PassState :=
  (List.range length).foldl listPassStep { st with max_changed := 0 }

/-- Fuel-indexed embedding of the `while (zero_num < length)` loop of
`setStepperStep(int8_t *)` (lines 179-200). Each iteration runs one pass
and then calls `step(max_changed)`; `frames` counts those `step()` calls.
Returns `none` only when the fuel runs out before the loop exits. -/
def listMoveLoop (fuel length : Nat) (st : PassState) (frames : Nat) :
    Option (PassState × Nat) :=
  match fuel with
  | 0 => none
  | fuel + 1 =>
    if st.zero_num < length then
      listMoveLoop fuel length (listPass length st) (frames + 1)
    else
      some (st, frames)

/-- Embedding of `Hundred_Steppers::setStepperStep(int8_t *)`
(lines 170-201), the multi-motor move. `arrayLen` is a helper from the
missing header; per the spec the argument is a "sequence of signed
targets, one per motor up to N", so its length is the sequence length,
then clamped to `nSteppers` (line 176). On success returns the final
remaining-delta list, the final state and the number of `step()` calls. -/
def setStepperStepList (fuel : Nat) (step_list : List Int) (s : State) :
    Option (List Int × State × Nat) :=
  let length := if step_list.length > s.nSteppers then s.nSteppers
                else step_list.length
  match listMoveLoop fuel length
      ⟨step_list, s.step_table, 0, 0⟩ 0 with
  | none => none
  | some (st, frames) =>
      some (st.step_list, { s with step_table := st.step_table }, frames)

/-- Body of the `for` loop of `home()` (lines 212-226) at index `i`: a
positive counter is decremented, a negative one incremented (both record
`max_changed = i`), a zero counter increments `zero_num` (modulo 2^16).
The remaining-delta source is the live counter array itself; the
`step_list` field is unused here and left untouched. -/
def homePassStep (st : PassState) (i : Nat) : PassState :=
  let v := st.step_table.getD i 0
  if v > 0 then
    { st with
      step_table := st.step_table.set i (v - 1)
      max_changed := i }
  else if v < 0 then
    { st with
      step_table := st.step_table.set i (v + 1)
      max_changed := i }
  else
    { st with zero_num := (st.zero_num + 1) % 65536 }

/-- One full pass `for (i = 0; i < nSteppers; i++)` of `home()`, with
`max_changed` reset to 0 at the start (line 211). -/
def homePass (nSteppers : Nat) (st : PassState) : PassState :=
  (List.range nSteppers).foldl homePassStep { st with max_changed := 0 }

/-- Fuel-indexed embedding of the `while (zero_num < nSteppers)` loop of
`home()` (lines 209-228), counting `step()` calls in `frames`. -/
def homeLoop (fuel nSteppers : Nat) (st : PassState) (frames : Nat) :
    Option (PassState × Nat) :=
  match fuel with
  | 0 => none
  | fuel + 1 =>
    if st.zero_num < nSteppers then
      homeLoop fuel nSteppers (homePass nSteppers st) (frames + 1)
    else
      some (st, frames)

/-- Embedding of `Hundred_Steppers::home()` (lines 203-229). -/
def home (fuel : Nat) (s : State) : Option (State × Nat) :=
  match homeLoop fuel s.nSteppers ⟨[], s.step_table, 0, 0⟩ 0 with
  | none => none
  | some (st, frames) => some ({ s with step_table := st.step_table }, frames)

/-- Embedding of `Hundred_Steppers::setStepperNum(uint16_t n)`
(lines 231-254). The `calloc` outcome is a parameter `allocOk`: on
success the old storage is freed, replaced by `n` zero counters, and
`nSteppers` becomes `n`; on failure the state is untouched. Returns the
`bool` result together with the resulting state. -/
def setStepperNum (allocOk : Bool) (n : Nat) (s : State) : Bool × State :=
  if allocOk then
    (true, { nSteppers := n, step_table := List.replicate n 0 })
  else
    (false, s)

/-- Embedding of `Hundred_Steppers::getStepperNum()` (lines 256-259). -/
def getStepperNum (s : State) : Nat := s.nSteppers

/-- Timing-gate pass condition of `step()` (line 266): the busy-wait
`while ((micros() - last_step_time) < step_delay) {;}` exits at a clock
reading `t` (with `last ≤ t`, the clock being monotone) such that the
32-bit wrapping difference `(t - last) % 2^32` has reached `step_delay`. -/
def gatePasses (step_delay last t : Nat) : Prop :=
  last ≤ t ∧ step_delay ≤ (t - last) % 2 ^ 32

instance (step_delay last t : Nat) : Decidable (gatePasses step_delay last t) :=
  inferInstanceAs (Decidable (last ≤ t ∧ step_delay ≤ (t - last) % 2 ^ 32))

/-- A list of successive `last_step_time` watermarks produced by a
sequence of `step()` calls: each new watermark `w'` is the second
`micros()` reading (line 267), taken at or after the reading `t` at which
the busy-wait exited against the previous watermark `w`. -/
def ValidGateTrace (step_delay : Nat) : List Nat → Prop
  | [] => True
  | [_] => True
  | w :: w' :: rest =>
      (∃ t, gatePasses step_delay w t ∧ t ≤ w') ∧
      ValidGateTrace step_delay (w' :: rest)

/-! Helper lemmas about `List.getD` and `List.set`. -/

theorem getD_set_self (l : List Int) (i : Nat) (a : Int) (h : i < l.length) :
    (l.set i a).getD i 0 = a := by
  simp [List.getElem?_set_self h]

theorem getD_set_ne (l : List Int) (i j : Nat) (a : Int) (h : i ≠ j) :
    (l.set i a).getD j 0 = l.getD j 0 := by
  simp [List.getElem?_set_ne h]

theorem getD_pos_lt_length (l : List Int) (i : Nat) (h : l.getD i 0 ≠ 0) :
    i < l.length := by
  by_contra hc
  have : l[i]? = none := List.getElem?_eq_none (by omega)
  simp [this] at h

/-! Lemmas about the single-motor move loop. -/

theorem moveOneLoop_getD : ∀ (steps : Int) (n : Nat) (tbl : List Int),
    n < tbl.length → ∀ m, (moveOneLoop steps n tbl).getD m 0 =
      if m = n then tbl.getD m 0 + steps else tbl.getD m 0 := by
  intro steps
  generalize hk : steps.natAbs = k
  induction k generalizing steps with
  | zero =>
    intro n tbl h m
    have hs : steps = 0 := by omega
    subst hs
    rw [moveOneLoop]
    rw [if_pos rfl]
    split <;> simp
  | succ k ih =>
    intro n tbl h m
    have hs : steps ≠ 0 := by omega
    rw [moveOneLoop]
    rw [if_neg hs]
    by_cases hpos : steps > 0
    · rw [if_pos hpos]
      have hrec := ih (steps - 1) (by omega) n
        (tbl.set n (tbl.getD n 0 + 1)) (by simpa using h) m
      rw [hrec]
      by_cases hm : m = n
      · subst hm
        rw [if_pos rfl, if_pos rfl, getD_set_self _ _ _ h]
        ring
      · rw [if_neg hm, if_neg hm, getD_set_ne _ _ _ _ (Ne.symm hm)]
    · rw [if_neg hpos]
      have hrec := ih (steps + 1) (by omega) n
        (tbl.set n (tbl.getD n 0 - 1)) (by simpa using h) m
      rw [hrec]
      by_cases hm : m = n
      · subst hm
        rw [if_pos rfl, if_pos rfl, getD_set_self _ _ _ h]
        ring
      · rw [if_neg hm, if_neg hm, getD_set_ne _ _ _ _ (Ne.symm hm)]

/-- C8: for every in-range motor index `n` (`n < nSteppers`) and every
signed step count `S`, `setStepperStep(n, S)` terminates (the embedding
is a total function) and ends with position counter `n` increased by
exactly `S`, every other position counter unchanged. -/
theorem C8_move_one_exact (s : State) (n : Nat) (S : Int)
    (hwf : s.WF) (hn : n < s.nSteppers) :
    (setStepperStepSingle n S s).step_table.getD n 0 =
        s.step_table.getD n 0 + S ∧
    ∀ m, m ≠ n → (setStepperStepSingle n S s).step_table.getD m 0 =
        s.step_table.getD m 0 := by
  have hlen : n < s.step_table.length := by
    rw [hwf]
    exact hn
  unfold setStepperStepSingle
  rw [if_pos hn]
  constructor
  · have := moveOneLoop_getD S n s.step_table hlen n
    simpa using this
  · intro m hm
    have := moveOneLoop_getD S n s.step_table hlen m
    simpa [hm] using this

/-- Witness for C8 at a concrete input: two motors with counters `[5, 7]`,
moving motor 0 by `-3` steps leaves counters `[2, 7]`. -/
theorem C8_move_one_exact_witness :
    (setStepperStepSingle 0 (-3) ⟨2, [5, 7]⟩).step_table.getD 0 0 = 5 + (-3) ∧
    (setStepperStepSingle 0 (-3) ⟨2, [5, 7]⟩).step_table.getD 1 0 = 7 := by
  have h := C8_move_one_exact ⟨2, [5, 7]⟩ 0 (-3) rfl (by decide)
  exact ⟨h.1, h.2 1 (by decide)⟩

/-- C1: the claim says that after `move_many(D)` every covered position
counter has advanced by exactly `D[i]`. It fails: `zero_num` is never
reset between passes of the `while (zero_num < length)` loop, so zeros
counted in earlier passes accumulate and the loop exits early. With 3
motors, all counters 0, and `D = [0, 0, 3]`, the call returns after two
passes with counter 2 equal to `2` (and a remaining delta of `1` left in
the list), not `0 + 3` — contradicting the source's own comment "loop
until every steps_to_move return to zero". -/
theorem C1_moveMany_shortfall :
    setStepperStepList 10 [0, 0, 3] ⟨3, [0, 0, 0]⟩ =
      some ([0, 0, 1], ⟨3, [0, 0, 2]⟩, 2) ∧
    ((2 : Int) ≠ 0 + 3) := by
  exact ⟨by decide, by decide⟩

/-- C2: the claim says `home()` always terminates with every position
counter equal to 0. The same `zero_num` accumulation makes `home()` exit
early: starting from counters `[0, 0, 3]` it terminates after two passes
with counters `[0, 0, 1]`, contradicting the source's comment "move each
steppers to zero position". -/
theorem C2_home_shortfall :
    home 10 ⟨3, [0, 0, 3]⟩ = some (⟨3, [0, 0, 1]⟩, 2) ∧
    (⟨3, [0, 0, 1]⟩ : State).step_table ≠ [0, 0, 0] := by
  exact ⟨by decide, by decide⟩

/-- C3 (counterexample): the claim says `step(active_count)` serializes
exactly the motors with indices `active_count - 1` down to `0`. With 3
motors and `active_count = 1` (no clamping), the shift loop reads indices
`[1, 0]` — two phase bytes, not just motor `0`: the argument is used as a
highest motor index, and the loop bound is inclusive (`i <= length`). -/
theorem C3_counterexample :
    stepIndices 3 1 = [1, 0] ∧ stepIndices 3 1 ≠ [0] := by
  exact ⟨by decide, by decide⟩

/-- C3 (amended): `step(active_count)` first clamps: an argument of 0 or
one exceeding `nSteppers` becomes `nSteppers`; calling the clamped value
`L`, it then serializes the motors with indices `L` down to `0` inclusive,
in that reverse order, one phase byte each (`L + 1` bytes in total) — the
argument acts as the highest transmitted index, not as a count. -/
theorem C3_amended_reverse_window (nSteppers active_count : Nat) :
    stepIndices nSteppers active_count =
      (List.range (clampLength nSteppers active_count + 1)).reverse := by
  apply List.ext_getElem
  · simp [stepIndices]
  · intro j h1 h2
    simp only [stepIndices, List.getElem_map, List.getElem_range,
      List.getElem_reverse, List.length_reverse, List.length_range]
    simp only [List.length_map, List.length_range] at h1
    omega

/-- C4: the claim says every `step_table` read in `step()` uses an index
in `0 .. nSteppers - 1`. It fails: with `nSteppers = 2` and argument 0
(as issued, e.g., by `home()` on an all-zero table), the clamp sets
`length = nSteppers = 2` and the inclusive loop reads
`step_table[2], step_table[1], step_table[0]` — index 2 is one past the
end of the 2-entry `calloc` allocation, an out-of-bounds read. -/
theorem C4_out_of_bounds_read :
    stepIndices 2 0 = [2, 1, 0] ∧ 2 ∈ stepIndices 2 0 ∧ ¬ (2 < 2) := by
  exact ⟨by decide, by decide, by decide⟩

/-- C5: the claim says every phase-table lookup uses a valid non-negative
index for every reachable motor-array state. It fails on negative
counters, which are reachable: `setStepperStep(0, -1)` on a fresh
one-motor driver leaves counter 0 at `-1`, and the lookup
`cmd_list[step_table[..] % driver_mode]` then computes the C++
truncated remainder `-1 % 8 = -1`, a negative (out-of-bounds) index into
`cmd_list`. -/
theorem C5_negative_phase_index :
    (setStepperStepSingle 0 (-1) ⟨1, [0]⟩).step_table = [-1] ∧
    phaseIndex (-1) = -1 ∧ ¬ validPhaseIndex (phaseIndex (-1)) := by
  refine ⟨?_, by decide, by decide⟩
  unfold setStepperStepSingle
  rw [if_pos (by decide)]
  show moveOneLoop (-1) 0 [0] = [-1]
  rw [moveOneLoop]
  norm_num
  rw [moveOneLoop]
  norm_num

/-- C6: the claim says `move_many(D)` performs exactly `max_i |D[i]|`
frame transmissions. It fails: with one motor and `D = [1]`, the first
pass applies the single step but counts no zeros, so a second pass (and a
second `step()` call) is needed before `zero_num` reaches `length` —
2 frame transmissions where the claim requires `max = 1`. (The all-zero
part of the claim does hold for a nonempty window, but the general count
does not.) -/
theorem C6_frame_count_mismatch :
    setStepperStepList 10 [1] ⟨1, [0]⟩ = some ([0], ⟨1, [1]⟩, 2) ∧
    ((2 : Nat) ≠ 1) := by
  exact ⟨by decide, by decide⟩

/-- C10: `setStepperNum(n)` with a successful allocation returns `true`,
sets the motor count to `n` (observable through `getStepperNum`) and
replaces the counter storage by `n` zero-initialized counters; with a
failed allocation it returns `false` and leaves the whole state — motor
count and prior storage — unchanged. -/
theorem C10_resize_contract (n : Nat) (s : State) :
    (setStepperNum true n s).1 = true ∧
    getStepperNum (setStepperNum true n s).2 = n ∧
    (setStepperNum true n s).2.step_table = List.replicate n 0 ∧
    (setStepperNum false n s).1 = false ∧
    (setStepperNum false n s).2 = s ∧
    getStepperNum (setStepperNum false n s).2 = getStepperNum s := by
  simp [setStepperNum, getStepperNum]

/-! Lemmas about one pass of the multi-motor move: lengths are preserved
and, at every index, the sum of remaining delta and position counter is
preserved (each move transfers one unit from the list to the table). -/

theorem listPassStep_table_length (st : PassState) (i : Nat) :
    (listPassStep st i).step_table.length = st.step_table.length := by
  simp only [listPassStep]
  split
  · simp
  · split <;> simp

theorem listPassStep_list_length (st : PassState) (i : Nat) :
    (listPassStep st i).step_list.length = st.step_list.length := by
  simp only [listPassStep]
  split
  · simp
  · split <;> simp

theorem listPassStep_sum (st : PassState) (i : Nat)
    (h : i < st.step_table.length) (j : Nat) :
    (listPassStep st i).step_list.getD j 0 +
        (listPassStep st i).step_table.getD j 0 =
      st.step_list.getD j 0 + st.step_table.getD j 0 := by
  unfold listPassStep
  by_cases hv : st.step_list.getD i 0 > 0
  · rw [if_pos hv]
    have hi : i < st.step_list.length := getD_pos_lt_length _ _ (by omega)
    by_cases hj : j = i
    · subst hj
      simp only [getD_set_self _ _ _ hi, getD_set_self _ _ _ h]
      ring
    · simp only [getD_set_ne _ _ _ _ (Ne.symm hj)]
  · rw [if_neg hv]
    by_cases hv2 : st.step_list.getD i 0 < 0
    · rw [if_pos hv2]
      have hi : i < st.step_list.length := getD_pos_lt_length _ _ (by omega)
      by_cases hj : j = i
      · subst hj
        simp only [getD_set_self _ _ _ hi, getD_set_self _ _ _ h]
        ring
      · simp only [getD_set_ne _ _ _ _ (Ne.symm hj)]
    · rw [if_neg hv2]

theorem listFold_table_length (len : Nat) (st : PassState) :
    ((List.range len).foldl listPassStep st).step_table.length =
      st.step_table.length := by
  induction len generalizing st with
  | zero => rfl
  | succ n ih =>
    rw [List.range_succ, List.foldl_append]
    simp only [List.foldl_cons, List.foldl_nil]
    rw [listPassStep_table_length, ih]

theorem listFold_sum (len : Nat) (st : PassState)
    (h : len ≤ st.step_table.length) (j : Nat) :
    ((List.range len).foldl listPassStep st).step_list.getD j 0 +
        ((List.range len).foldl listPassStep st).step_table.getD j 0 =
      st.step_list.getD j 0 + st.step_table.getD j 0 := by
  induction len with
  | zero => rfl
  | succ n ih =>
    rw [List.range_succ, List.foldl_append]
    simp only [List.foldl_cons, List.foldl_nil]
    rw [listPassStep_sum _ n (by rw [listFold_table_length]; omega) j]
    exact ih (by omega)

theorem listPass_table_length (len : Nat) (st : PassState) :
    (listPass len st).step_table.length = st.step_table.length := by
  unfold listPass
  rw [listFold_table_length]

theorem listPass_sum (len : Nat) (st : PassState)
    (h : len ≤ st.step_table.length) (j : Nat) :
    (listPass len st).step_list.getD j 0 + (listPass len st).step_table.getD j 0 =
      st.step_list.getD j 0 + st.step_table.getD j 0 := by
  unfold listPass
  exact listFold_sum len { st with max_changed := 0 } h j

theorem listMoveLoop_sum (fuel : Nat) : ∀ (len : Nat) (st : PassState)
    (frames : Nat) (out : PassState × Nat), len ≤ st.step_table.length →
    listMoveLoop fuel len st frames = some out → ∀ j,
    out.1.step_list.getD j 0 + out.1.step_table.getD j 0 =
      st.step_list.getD j 0 + st.step_table.getD j 0 := by
  induction fuel with
  | zero =>
    intro len st frames out h heq
    simp [listMoveLoop] at heq
  | succ n ih =>
    intro len st frames out h heq j
    rw [listMoveLoop] at heq
    split at heq
    · have h2 : len ≤ (listPass len st).step_table.length := by
        rw [listPass_table_length]
        exact h
      rw [ih len (listPass len st) (frames + 1) out h2 heq j]
      exact listPass_sum len st h j
    · cases heq
      rfl

/-- C7 (amended): `move_many` operates in place on the caller-supplied
sequence, which serves as the mutable remaining-delta store: whenever the
call completes, at every index the final list entry plus the final
position counter equals the original list entry plus the original
counter (each applied step moves one unit from the list to the table).
The caller's sequence is not in general unchanged. -/
theorem C7_in_place_sum (fuel : Nat) (D : List Int) (s : State)
    (out : List Int × State × Nat) (hwf : s.WF)
    (heq : setStepperStepList fuel D s = some out) (i : Nat) :
    out.1.getD i 0 + out.2.1.step_table.getD i 0 =
      D.getD i 0 + s.step_table.getD i 0 := by
  have hle : (if D.length > s.nSteppers then s.nSteppers else D.length) ≤
      s.step_table.length := by
    rw [hwf]
    split <;> omega
  have heq2 : (match listMoveLoop fuel
        (if D.length > s.nSteppers then s.nSteppers else D.length)
        ⟨D, s.step_table, 0, 0⟩ 0 with
      | none => none
      | some (st, frames) =>
          some (st.step_list, { s with step_table := st.step_table }, frames)) =
      some out := heq
  cases hm : listMoveLoop fuel
      (if D.length > s.nSteppers then s.nSteppers else D.length)
      ⟨D, s.step_table, 0, 0⟩ 0 with
  | none =>
    rw [hm] at heq2
    simp at heq2
  | some r =>
    obtain ⟨st, frames⟩ := r
    rw [hm] at heq2
    have h3 : some (st.step_list,
        ({ s with step_table := st.step_table } : State), frames) = some out := heq2
    injection h3 with h4
    subst h4
    exact listMoveLoop_sum fuel _ ⟨D, s.step_table, 0, 0⟩ 0 (st, frames) hle hm i

/-- Witness for C7 at a concrete input: one motor with counter 0 and
`D = [2]` ends with list `[0]` and counter `2`; the unit sum `0 + 2`
equals the original `2 + 0`. -/
theorem C7_in_place_sum_witness :
    ([0] : List Int).getD 0 0 + (⟨1, [2]⟩ : State).step_table.getD 0 0 =
      ([2] : List Int).getD 0 0 + (⟨1, [0]⟩ : State).step_table.getD 0 0 :=
  C7_in_place_sum 10 [2] ⟨1, [0]⟩ ([0], ⟨1, [2]⟩, 3) rfl (by decide) 0

/-- C7 (counterexample): the claim as stated — the caller-supplied
sequence is unchanged after `move_many` returns — is false: the source
mutates `step_list` through the caller's pointer, and with one motor and
`D = [2]` the buffer holds `[0]`, not `[2]`, when the call returns. -/
theorem C7_counterexample :
    setStepperStepList 10 [2] ⟨1, [0]⟩ = some ([0], ⟨1, [2]⟩, 3) ∧
    ([0] : List Int) ≠ [2] := by
  exact ⟨by decide, by decide⟩

/-- C9: for any sequence of frame-transmitter calls, the timing gate
guarantees that two consecutive frame transmissions (their
`last_step_time` watermarks) are separated by at least `step_delay` time
units: each call busy-waits until `micros() - last_step_time` (a 32-bit
wrapping difference on a monotone clock) reaches `step_delay` and only
then takes the new watermark. -/
theorem C9_gate_separation (step_delay : Nat) : ∀ (ws : List Nat),
    ValidGateTrace step_delay ws → ∀ i, i + 1 < ws.length →
    ws.getD i 0 + step_delay ≤ ws.getD (i + 1) 0 := by
  intro ws
  induction ws with
  | nil =>
    intro h i hi
    simp at hi
  | cons w rest ih =>
    intro h i hi
    cases rest with
    | nil => simp at hi
    | cons w2 rest2 =>
      cases i with
      | zero =>
        obtain ⟨⟨t, ⟨hwt, hd⟩, htw⟩, _⟩ := h
        have h1 : (t - w) % 2 ^ 32 ≤ t - w := Nat.mod_le _ _
        simp only [List.getD_cons_zero, List.getD_cons_succ]
        omega
      | succ i =>
        simp only [List.getD_cons_succ]
        exact ih h.2 i (by simp only [List.length_cons] at hi ⊢; omega)

/-- Witness for C9 at a concrete trace: with `step_delay = 5000` the
trace `[0, 5000]` is a valid gate trace (the busy-wait exits at clock
reading 5000) and the two watermarks are separated by `5000`. -/
theorem C9_gate_separation_witness :
    ValidGateTrace 5000 [0, 5000] ∧
    ([0, 5000] : List Nat).getD 0 0 + 5000 ≤ ([0, 5000] : List Nat).getD 1 0 := by
  have htr : ValidGateTrace 5000 [0, 5000] :=
    ⟨⟨5000, ⟨by decide, by decide⟩, by decide⟩, trivial⟩
  exact ⟨htr, C9_gate_separation 5000 [0, 5000] htr 0 (by decide)⟩

end HundredSteppers
